import Mathlib

/-!
Shallow embedding of the go-m17gateway-monitor frame-decoding pipeline.

Bytes are modelled as `Fin 256` (Go `byte`), datagrams as `List (Fin 256)`,
multi-byte big-endian integers as `Nat`.  The stateful Go handlers are
embedded as pure functions returning an explicit result type that records
which return point of the Go code was taken, so that accept/drop decisions
and the audio handed to the sink are observable.
-/

namespace M17Monitor

/-- A Go `byte`. -/
abbrev Byte := Fin 256

/-- `binary.BigEndian.Uint16` applied to two bytes: `b0` is the
most-significant byte.  The result fits in 16 bits, so no wraparound
reduction is needed. -/
def uint16BE (b0 b1 : Byte) : Nat :=
  b0.val * 256 + b1.val

/-- The packet magic constant `MagicM17 = "M17 "`, as its four ASCII bytes
`M`, `1`, `7`, space. -/
def MagicM17 : List Byte := [77, 49, 55, 32]

/-- `base40Chars`, the 40-character set used for encoding callsigns: space,
the 26 capital letters, the 10 digits, dash, slash, dot. -/
def base40Chars : String := " ABCDEFGHIJKLMNOPQRSTUVWXYZ0123456789-/."

/-- Indexing `base40Chars[idx]` as in the Go source; the index is always
`address % 40 < 40 = base40Chars.length`, so the default is never used. -/
def base40Char (idx : Nat) : Char :=
  base40Chars.toList.getD idx ' '

/-- The `for address > 0` loop body of `decodeCallsign`: append
`base40Chars[address % 40]` and continue with `address / 40`.  Appending at
the end of the accumulating string makes the result least-significant-symbol
first, which is exactly a cons on the remaining suffix here.  Terminates
because `address / 40 < address` when `0 < address`. -/
def decodeLoop (address : Nat) : List Char :=
  if h : 0 < address then
    base40Char (address % 40) :: decodeLoop (address / 40)
  else
    []
decreasing_by exact Nat.div_lt_self h (by norm_num)

/-- The big-endian accumulation `address = address*256 + uint64(b)` over the
encoded bytes, in Go `uint64` arithmetic (reduced mod `2^64` at each step;
for inputs of at most 8 bytes the reduction never fires). -/
def addressOf (encoded : List Byte) : Nat :=
  encoded.foldl (fun a b => (a * 256 + b.val) % 2 ^ 64) 0

/-- `decodeCallsign` decodes a 6-byte address into a callsign (the Go code
accepts any byte slice; callers pass 6 bytes). -/
def decodeCallsign (encoded : List Byte) : String :=
  (decodeLoop (addressOf encoded)).asString

/-- The Codec2 wrapper state.  `nbit` and `nsam` stand for the values of the
external C calls `codec2_bits_per_frame` and `codec2_samples_per_frame` for
the configured mode; `core` stands for the opaque external DSP
`codec2_decode`, which fills sample `i` of the freshly allocated output
buffer from the input bits.  These three are outside the Go sources (C
library internals), so they are abstract parameters here; the Go wrapper
logic around them is embedded faithfully. -/
structure Codec2 where
  nbit : Nat
  nsam : Nat
  core : List Byte → Nat → Int

/-- `Codec2.Decode`: reject unless `len(bits) == nbit/8`, else allocate
`nsam` samples and let the external decoder fill them. -/
def Codec2.Decode (c : Codec2) (bits : List Byte) : Except String (List Int) :=
  if bits.length ≠ c.nbit / 8 then
    .error "invalid bit length"
  else
    .ok ((List.range c.nsam).map (c.core bits))

/-- The observable outcome of `handleM17`, one constructor per return point
of the Go function.  Only `played` writes anything to the audio sink. -/
inductive M17Result where
  | tooShort
  | notStreamOrEncrypted
  | nonVoice
  | badPayloadLength
  | firstDecodeFailed
  | secondDecodeFailed
  | played (audio : List Int)
deriving DecidableEq, Repr

set_option linter.unusedVariables false

/-- `handleM17`, embedded with one constructor per early return.  Field
extraction, LICH parsing and the type-field bit shifts follow the Go source
line by line; `streamID`, `frameNumber`, `dst`, `src` and `meta` are
computed but only logged in the source, so they do not influence the
result. -/
def handleM17 (codec : Codec2) (packet : List Byte) : M17Result :=
  if packet.length < 54 then
    .tooShort
  else
    let streamID := uint16BE (packet.getD 4 0) (packet.getD 5 0)
    let lich := (packet.drop 6).take 28
    let frameNumber := uint16BE (packet.getD 34 0) (packet.getD 35 0)
    let payload := (packet.drop 36).take 16
    let dst := decodeCallsign (lich.take 6)
    let src := decodeCallsign ((lich.drop 6).take 6)
    let typ := uint16BE (lich.getD 12 0) (lich.getD 13 0)
    let meta := (lich.drop 14).take 14
    let packetStreamIndicator := typ &&& 1
    let dataTypeIndicator := (typ >>> 1) &&& 3
    let encryptionType := (typ >>> 3) &&& 3
    if packetStreamIndicator = 0 ∨ encryptionType ≠ 0 then
      .notStreamOrEncrypted
    else if dataTypeIndicator ≠ 2 ∧ dataTypeIndicator ≠ 3 then
      .nonVoice
    else if payload.length ≠ 16 then
      .badPayloadLength
    else
      match codec.Decode (payload.take 8) with
      | .error _ => .firstDecodeFailed
      | .ok audio1 =>
        match codec.Decode (payload.drop 8) with
        | .error _ => .secondDecodeFailed
        | .ok audio2 => .played (audio1 ++ audio2)

/-- The observable outcome of `handlePacket`: dropped at dispatch, or routed
to `handleM17`. -/
inductive PacketResult where
  | ignored
  | m17 (r : M17Result)
deriving DecidableEq, Repr

/-- `handlePacket`: drop datagrams shorter than 4 bytes, route datagrams
whose first four bytes are the magic to `handleM17`, drop the rest. -/
def handlePacket (codec : Codec2) (packet : List Byte) : PacketResult :=
  if packet.length < 4 then
    .ignored
  else if packet.take 4 = MagicM17 then
    .m17 (handleM17 codec packet)
  else
    .ignored

/-- The payload slice `packet[36:52]` of a datagram. -/
def payloadBytes (packet : List Byte) : List Byte :=
  (packet.drop 36).take 16

/-- The 16-bit LICH type field `binary.BigEndian.Uint16(lich[12:14])` of a
datagram, extracted through the same `lich = packet[6:34]` slice as
`handleM17`. -/
def typeField (packet : List Byte) : Nat :=
  uint16BE (((packet.drop 6).take 28).getD 12 0) (((packet.drop 6).take 28).getD 13 0)

/-- The filter condition of the spec on a 16-bit type value: bit 0
(packetStreamIndicator) is 1, bits 3-4 (encryptionType) are 0, and bits 1-2
(dataTypeIndicator) are 2 or 3. -/
@[reducible] def acceptType (typ : Nat) : Prop :=
  typ &&& 1 = 1 ∧ (typ >>> 3) &&& 3 = 0 ∧ ((typ >>> 1) &&& 3 = 2 ∨ (typ >>> 1) &&& 3 = 3)

/-- Whether an outcome of `handleM17` passed the payload to codec decoding
(reached the `codec2.Decode` calls). -/
def M17Result.reachedCodec : M17Result → Bool
  | .firstDecodeFailed => true
  | .secondDecodeFailed => true
  | .played _ => true
  | _ => false

/-! ### Shared helper lemmas -/

lemma and_one_eq_mod (n : Nat) : n &&& 1 = n % 2 := Nat.and_one_is_mod n

lemma and_three_eq_mod (n : Nat) : n &&& 3 = n % 4 := by
  have h := Nat.and_pow_two_sub_one_eq_mod n 2
  norm_num at h
  exact h

lemma shiftRight_one_eq (n : Nat) : n >>> 1 = n / 2 := by
  rw [Nat.shiftRight_eq_div_pow]

lemma shiftRight_three_eq (n : Nat) : n >>> 3 = n / 8 := by
  rw [Nat.shiftRight_eq_div_pow]

lemma payloadBytes_length (packet : List Byte) (h : 54 ≤ packet.length) :
    (payloadBytes packet).length = 16 := by
  simp [payloadBytes]
  omega

/-- `handleM17` on a long-enough datagram, rewritten with the named slice
extractors; the unused log-only fields drop out. -/
lemma handleM17_eq (codec : Codec2) (packet : List Byte) (h : ¬ packet.length < 54) :
    handleM17 codec packet =
      (if typeField packet &&& 1 = 0 ∨ (typeField packet >>> 3) &&& 3 ≠ 0 then
        .notStreamOrEncrypted
      else if (typeField packet >>> 1) &&& 3 ≠ 2 ∧ (typeField packet >>> 1) &&& 3 ≠ 3 then
        .nonVoice
      else if (payloadBytes packet).length ≠ 16 then
        .badPayloadLength
      else
        match codec.Decode ((payloadBytes packet).take 8) with
        | .error _ => .firstDecodeFailed
        | .ok audio1 =>
          match codec.Decode ((payloadBytes packet).drop 8) with
          | .error _ => .secondDecodeFailed
          | .ok audio2 => .played (audio1 ++ audio2)) := by
  rw [handleM17, if_neg h]
  rfl

/-- A deterministic stub codec used for concrete witnesses: 8-byte frames in,
2 samples out, sample `i` has value `i`. -/
def stubCodec : Codec2 := ⟨64, 2, fun _ i => (i : Int)⟩

/-- A concrete 54-byte datagram: magic, zero stream id, zero addresses, type
field `0x0005` (stream mode, voice, unencrypted), zero payload. -/
def pktA : List Byte := MagicM17 ++ List.replicate 14 0 ++ [0, 5] ++ List.replicate 34 0

/-! ### Claims -/

/-- C1: for every captured datagram that reaches field extraction
(length at least 54 bytes), the payload is passed to codec decoding iff
bit 0 of the type field is 1, bits 3-4 are 0, and bits 1-2 are 2 or 3;
every other combination is dropped before any codec call. -/
theorem handleM17_filter_iff (codec : Codec2) (packet : List Byte)
    (h : 54 ≤ packet.length) :
    (handleM17 codec packet).reachedCodec = true ↔ acceptType (typeField packet) := by
  have hlen : ¬ packet.length < 54 := by omega
  have hpay : ¬ ((payloadBytes packet).length ≠ 16) := by
    rw [payloadBytes_length packet h]
    exact fun hne => hne rfl
  rw [handleM17_eq codec packet hlen]
  by_cases hc : typeField packet &&& 1 = 0 ∨ (typeField packet >>> 3) &&& 3 ≠ 0
  · rw [if_pos hc]
    simp only [M17Result.reachedCodec, Bool.false_eq_true, false_iff, acceptType]
    simp only [and_one_eq_mod, and_three_eq_mod, shiftRight_one_eq, shiftRight_three_eq] at hc ⊢
    omega
  · rw [if_neg hc]
    by_cases hd : (typeField packet >>> 1) &&& 3 ≠ 2 ∧ (typeField packet >>> 1) &&& 3 ≠ 3
    · rw [if_pos hd]
      simp only [M17Result.reachedCodec, Bool.false_eq_true, false_iff, acceptType]
      simp only [and_one_eq_mod, and_three_eq_mod, shiftRight_one_eq, shiftRight_three_eq]
        at hc hd ⊢
      omega
    · rw [if_neg hd, if_neg hpay]
      have hacc : acceptType (typeField packet) := by
        simp only [acceptType, and_one_eq_mod, and_three_eq_mod, shiftRight_one_eq,
          shiftRight_three_eq] at hc hd ⊢
        omega
      rw [iff_true_intro hacc, iff_true]
      rcases h8 : codec.Decode ((payloadBytes packet).take 8) with e | a1
      · simp only [h8, M17Result.reachedCodec]
      · simp only [h8]
        rcases h9 : codec.Decode ((payloadBytes packet).drop 8) with e | a2 <;>
          simp only [h9, M17Result.reachedCodec]

/-- C1 witness: the concrete accepting datagram `pktA` instantiates the
filter characterization. -/
theorem handleM17_filter_iff_witness :
    54 ≤ pktA.length ∧
      ((handleM17 stubCodec pktA).reachedCodec = true ↔ acceptType (typeField pktA)) :=
  ⟨by decide, handleM17_filter_iff stubCodec pktA (by decide)⟩

lemma length_ge_four_of_magic (packet : List Byte) (hmagic : packet.take 4 = MagicM17) :
    4 ≤ packet.length := by
  have hl := congrArg List.length hmagic
  simp [MagicM17, List.length_take] at hl
  omega

/-- C2: a datagram carrying the magic is rejected by `handleM17` exactly when
it is shorter than 54 bytes; at 54 bytes and above it proceeds past the
length check to field extraction, where the payload is the fixed slice
`packet[36:52]` of 16 bytes. -/
theorem handleM17_length_boundary (codec : Codec2) (packet : List Byte)
    (hmagic : packet.take 4 = MagicM17) :
    (handlePacket codec packet = .m17 .tooShort ↔ packet.length < 54) ∧
    (54 ≤ packet.length →
      handleM17 codec packet ≠ .tooShort ∧
      payloadBytes packet = (packet.drop 36).take 16 ∧
      (payloadBytes packet).length = 16) := by
  have h4 : 4 ≤ packet.length := length_ge_four_of_magic packet hmagic
  have hroute : handlePacket codec packet = .m17 (handleM17 codec packet) := by
    rw [handlePacket, if_neg (by omega), if_pos hmagic]
  have hne : ¬ packet.length < 54 → handleM17 codec packet ≠ .tooShort := by
    intro hl heq
    rw [handleM17_eq codec packet hl] at heq
    iterate 5 (try (split at heq <;> try simp_all))
  constructor
  · rw [hroute]
    simp only [PacketResult.m17.injEq]
    by_cases hl : packet.length < 54
    · rw [iff_true_intro hl, iff_true, handleM17, if_pos hl]
    · rw [iff_false_intro hl, iff_false]
      exact hne hl
  · intro h54
    exact ⟨hne (by omega), rfl, payloadBytes_length packet h54⟩

/-- C2 witness: the 54-byte datagram `pktA` instantiates the boundary
characterization. -/
theorem handleM17_length_boundary_witness :
    ((handlePacket stubCodec pktA = .m17 .tooShort ↔ pktA.length < 54) ∧
      (54 ≤ pktA.length →
        handleM17 stubCodec pktA ≠ .tooShort ∧
        payloadBytes pktA = (pktA.drop 36).take 16 ∧
        (payloadBytes pktA).length = 16)) :=
  handleM17_length_boundary stubCodec pktA (by decide)

/-- C9: under the length precondition, the defensively re-validated payload
length is always exactly 16, so the payload-length rejection branch of
`handleM17` is unreachable. -/
theorem handleM17_payload_guard (codec : Codec2) (packet : List Byte)
    (h : 54 ≤ packet.length) :
    (payloadBytes packet).length = 16 ∧ handleM17 codec packet ≠ .badPayloadLength := by
  have hpay := payloadBytes_length packet h
  refine ⟨hpay, ?_⟩
  intro heq
  rw [handleM17_eq codec packet (by omega)] at heq
  iterate 5 (try (split at heq <;> try simp_all))

/-- C9 witness: instantiated at the concrete datagram `pktA`. -/
theorem handleM17_payload_guard_witness :
    (payloadBytes pktA).length = 16 ∧ handleM17 stubCodec pktA ≠ .badPayloadLength :=
  handleM17_payload_guard stubCodec pktA (by decide)

/-- A codec whose configured bits-per-frame is 80, so that its 10-byte frame
size rejects the 8-byte payload halves. -/
def mismatchCodec : Codec2 := ⟨80, 2, fun _ i => (i : Int)⟩

/-- Reduction of `handleM17` to the two codec calls once the frame is
accepted by the filter. -/
lemma handleM17_accepted_eq (codec : Codec2) (packet : List Byte)
    (h : 54 ≤ packet.length) (hacc : acceptType (typeField packet)) :
    handleM17 codec packet =
      (match codec.Decode ((payloadBytes packet).take 8) with
      | .error _ => .firstDecodeFailed
      | .ok audio1 =>
        match codec.Decode ((payloadBytes packet).drop 8) with
        | .error _ => .secondDecodeFailed
        | .ok audio2 => .played (audio1 ++ audio2)) := by
  have hpay := payloadBytes_length packet h
  obtain ⟨hps, he, hd⟩ := hacc
  rw [handleM17_eq codec packet (by omega)]
  simp only [and_one_eq_mod, and_three_eq_mod, shiftRight_one_eq, shiftRight_three_eq]
    at hps he hd ⊢
  rw [if_neg (by omega), if_neg (by omega), if_neg (by omega)]

/-- C4: on an accepted frame whose two 8-byte payload halves both decode
successfully, the emitted audio is exactly the first half's samples followed
by the second half's samples. -/
theorem handleM17_audio_concat (codec : Codec2) (packet : List Byte) (a1 a2 : List Int)
    (h : 54 ≤ packet.length) (hacc : acceptType (typeField packet))
    (h8 : codec.Decode ((payloadBytes packet).take 8) = .ok a1)
    (h9 : codec.Decode ((payloadBytes packet).drop 8) = .ok a2) :
    handleM17 codec packet = .played (a1 ++ a2) := by
  rw [handleM17_accepted_eq codec packet h hacc, h8, h9]

/-- C4 witness: on `pktA` with the stub codec both halves decode to `[0, 1]`
and the emitted audio is their concatenation. -/
theorem handleM17_audio_concat_witness :
    handleM17 stubCodec pktA = .played ([0, 1] ++ [0, 1]) :=
  handleM17_audio_concat stubCodec pktA [0, 1] [0, 1] (by decide) (by decide)
    (by rfl) (by rfl)

/-- C5: on an accepted frame, if either codec call fails no audio at all is
played; in particular when the first half decodes and the second fails, the
first half's samples are discarded and the frame ends at the second-decode
failure return. -/
theorem handleM17_drop_on_codec_error (codec : Codec2) (packet : List Byte)
    (h : 54 ≤ packet.length) (hacc : acceptType (typeField packet))
    (herr : (∃ e, codec.Decode ((payloadBytes packet).take 8) = .error e) ∨
      (∃ e, codec.Decode ((payloadBytes packet).drop 8) = .error e)) :
    (∀ audio, handleM17 codec packet ≠ .played audio) ∧
    (∀ a1 e, codec.Decode ((payloadBytes packet).take 8) = .ok a1 →
      codec.Decode ((payloadBytes packet).drop 8) = .error e →
      handleM17 codec packet = .secondDecodeFailed) := by
  rw [handleM17_accepted_eq codec packet h hacc]
  rcases herr with ⟨e, he⟩ | ⟨e, he⟩
  · rw [he]
    refine ⟨fun audio => by simp, fun a1 e' h8 h9 => ?_⟩
    cases h8
  · constructor
    · intro audio hplayed
      rw [he] at hplayed
      split at hplayed <;> simp_all
    · intro a1 e' h8 h9
      rw [h8, h9]

/-- C5 witness: with a codec configured for 10-byte frames every 8-byte half
is rejected, so the accepted frame `pktA` produces no audio at all. -/
theorem handleM17_drop_on_codec_error_witness :
    (∀ audio, handleM17 mismatchCodec pktA ≠ .played audio) ∧
    (∀ a1 e, mismatchCodec.Decode ((payloadBytes pktA).take 8) = .ok a1 →
      mismatchCodec.Decode ((payloadBytes pktA).drop 8) = .error e →
      handleM17 mismatchCodec pktA = .secondDecodeFailed) :=
  handleM17_drop_on_codec_error mismatchCodec pktA (by decide) (by decide)
    (.inr ⟨"invalid bit length", by rfl⟩)

/-- The spec's reference rendering: the base-40 digits of the accumulated
value, least significant first, each mapped through the 40-symbol alphabet.
`Nat.digits 40` produces exactly the `value mod 40` / `value div 40` digit
stream of the spec, and stops at value 0. -/
def base40Render (v : Nat) : String :=
  ((Nat.digits 40 v).map base40Char).asString

lemma decodeLoop_eq_digits (v : Nat) : decodeLoop v = (Nat.digits 40 v).map base40Char := by
  induction v using Nat.strong_induction_on with
  | _ v ih =>
    rcases Nat.eq_zero_or_pos v with h0 | hp
    · subst h0
      rw [decodeLoop]
      simp
    · rw [decodeLoop, dif_pos hp, Nat.digits_def' (by norm_num : (1 : Nat) < 40) hp]
      rw [ih (v / 40) (Nat.div_lt_self hp (by norm_num))]
      simp

/-- C3: `decodeCallsign` renders the big-endian accumulated value as its
base-40 digit string, least-significant symbol first (not reversed), and in
particular maps the bytes `00 00 00 00 12 34` to the string `T9B`. -/
theorem decodeCallsign_spec :
    (∀ encoded : List Byte, encoded.length = 6 →
      decodeCallsign encoded = base40Render (addressOf encoded)) ∧
    decodeCallsign [0, 0, 0, 0, 0x12, 0x34] = "T9B" := by
  constructor
  · intro encoded _
    rw [decodeCallsign, base40Render, decodeLoop_eq_digits]
  · have hv : addressOf [(0 : Byte), 0, 0, 0, 0x12, 0x34] = 4660 := by decide
    rw [decodeCallsign, hv]
    rw [decodeLoop, dif_pos (by norm_num)]
    rw [decodeLoop, dif_pos (by norm_num)]
    rw [decodeLoop, dif_pos (by norm_num)]
    norm_num
    rw [decodeLoop, dif_neg (by norm_num)]
    rfl

/-- C3 witness: the digit-rendering characterization instantiated at the
fixed test vector. -/
theorem decodeCallsign_spec_witness :
    decodeCallsign [0, 0, 0, 0, 0x12, 0x34] =
      base40Render (addressOf [0, 0, 0, 0, 0x12, 0x34]) :=
  decodeCallsign_spec.1 [0, 0, 0, 0, 0x12, 0x34] (by decide)

/-- C6: the all-zero address accumulates to 0, the decode loop never runs,
and the result is the empty string, not six spaces. -/
theorem decodeCallsign_zero :
    decodeCallsign [0, 0, 0, 0, 0, 0] = "" ∧
      decodeCallsign [0, 0, 0, 0, 0, 0] ≠ "      " := by
  have h : decodeCallsign [(0 : Byte), 0, 0, 0, 0, 0] = "" := by
    have hv : addressOf [(0 : Byte), 0, 0, 0, 0, 0] = 0 := by decide
    rw [decodeCallsign, hv, decodeLoop, dif_neg (by norm_num)]
    rfl
  refine ⟨h, ?_⟩
  rw [h]
  decide

/-- The decode loop with explicit fuel: `none` when the fuel runs out before
the loop finishes. -/
def decodeLoopFuel : Nat → Nat → Option (List Char)
  | 0, address => if 0 < address then none else some []
  | fuel + 1, address =>
    if 0 < address then
      (decodeLoopFuel fuel (address / 40)).map (fun rest => base40Char (address % 40) :: rest)
    else
      some []

lemma decodeLoopFuel_complete :
    ∀ fuel address, address < fuel → decodeLoopFuel fuel address = some (decodeLoop address) := by
  intro fuel
  induction fuel with
  | zero => intro a ha; omega
  | succ f ih =>
    intro a ha
    by_cases hp : 0 < a
    · have hdiv : a / 40 < a := Nat.div_lt_self hp (by norm_num)
      rw [decodeLoopFuel, if_pos hp, ih (a / 40) (by omega)]
      conv_rhs => rw [decodeLoop, dif_pos hp]
      rfl
    · rw [decodeLoopFuel, if_neg hp]
      conv_rhs => rw [decodeLoop, dif_neg hp]

/-- `decodeCallsign` run with an explicit fuel bound of one more step than
the accumulated value; the loop in fact terminates within that bound since
the value strictly shrinks under division by 40. -/
def decodeCallsignFuel (encoded : List Byte) : Option String :=
  (decodeLoopFuel (addressOf encoded + 1) (addressOf encoded)).map List.asString

/-- C8: `decodeCallsign` is total: on every input (in particular every
6-byte address) the decode loop terminates — the fuelled loop finishes
within `value + 1` steps and returns exactly the string produced by
`decodeCallsign`, because the value strictly decreases under division by
40 at each iteration. -/
theorem decodeCallsign_total (encoded : List Byte) :
    decodeCallsignFuel encoded = some (decodeCallsign encoded) := by
  rw [decodeCallsignFuel, decodeCallsign,
    decodeLoopFuel_complete _ _ (Nat.lt_succ_self _)]
  rfl

/-- C7: `Codec2.Decode` fails with the error `invalid bit length` exactly
when the input length differs from the configured bits-per-frame divided
by 8; on a matching length it succeeds with exactly `nsam` (the configured
samples-per-frame) samples. -/
theorem codec2_decode_contract (c : Codec2) (bits : List Byte) :
    (c.Decode bits = .error "invalid bit length" ↔ bits.length ≠ c.nbit / 8) ∧
    (bits.length = c.nbit / 8 →
      ∃ samples, c.Decode bits = .ok samples ∧ samples.length = c.nsam) := by
  by_cases hb : bits.length = c.nbit / 8
  · refine ⟨?_, fun _ => ⟨(List.range c.nsam).map (c.core bits), ?_, ?_⟩⟩
    · rw [Codec2.Decode, if_neg (by simp [hb])]
      simp [hb]
    · rw [Codec2.Decode, if_neg (by simp [hb])]
    · simp
  · refine ⟨?_, fun hc => absurd hc hb⟩
    rw [Codec2.Decode, if_pos hb]
    simp [hb]

/-- C7 witness: the 8-byte all-zero sub-frame matches `stubCodec`'s
configured `64 / 8 = 8` byte frame size and decodes to `nsam` samples. -/
theorem codec2_decode_contract_witness :
    ∃ samples, stubCodec.Decode (List.replicate 8 0) = .ok samples ∧
      samples.length = stubCodec.nsam :=
  (codec2_decode_contract stubCodec (List.replicate 8 0)).2 (by decide)

/-- A second concrete 54-byte datagram, agreeing with `pktA` on the type
field's low five bits (its type is `0x0105`, same low bits as `0x0005`) and
on the all-zero payload, while differing in streamID, destination, source,
type bits 8 and upward, meta, frameNumber and the reserved bytes. -/
def pktB : List Byte :=
  MagicM17 ++ [1, 2] ++ [0, 0, 0, 0, 18, 52] ++ [0, 0, 0, 0, 0, 1] ++ [1, 5] ++
    List.replicate 13 0 ++ [3] ++ [7, 7] ++ List.replicate 16 0 ++ [9, 9]

/-- C10: the dispatch outcome (accept/drop and emitted audio) of two magic
datagrams depends only on the type field's bits 0 through 4 and on the
16-byte payload: datagrams agreeing on those produce identical results no
matter how the remaining fields differ. -/
theorem handlePacket_depends_only_on_type_low_bits_and_payload (codec : Codec2)
    (p1 p2 : List Byte) (h1 : 54 ≤ p1.length) (h2 : 54 ≤ p2.length)
    (hm1 : p1.take 4 = MagicM17) (hm2 : p2.take 4 = MagicM17)
    (ht : typeField p1 % 32 = typeField p2 % 32)
    (hp : payloadBytes p1 = payloadBytes p2) :
    handlePacket codec p1 = handlePacket codec p2 := by
  rw [handlePacket, if_neg (by omega), if_pos hm1]
  rw [handlePacket, if_neg (by omega), if_pos hm2]
  rw [handleM17_eq codec p1 (by omega), handleM17_eq codec p2 (by omega)]
  have e1 : typeField p1 &&& 1 = typeField p2 &&& 1 := by
    simp only [and_one_eq_mod]
    omega
  have e2 : (typeField p1 >>> 1) &&& 3 = (typeField p2 >>> 1) &&& 3 := by
    simp only [and_three_eq_mod, shiftRight_one_eq]
    omega
  have e3 : (typeField p1 >>> 3) &&& 3 = (typeField p2 >>> 3) &&& 3 := by
    simp only [and_three_eq_mod, shiftRight_three_eq]
    omega
  rw [e1, e2, e3, hp]

/-- C10 witness: `pktA` and `pktB` differ in streamID, addresses, upper type
bits, meta, frame number and reserved bytes, yet produce the same outcome. -/
theorem handlePacket_depends_only_witness :
    (54 ≤ pktA.length ∧ 54 ≤ pktB.length ∧ pktA.take 4 = MagicM17 ∧
      pktB.take 4 = MagicM17 ∧ typeField pktA % 32 = typeField pktB % 32 ∧
      payloadBytes pktA = payloadBytes pktB) ∧
    handlePacket stubCodec pktA = handlePacket stubCodec pktB :=
  ⟨⟨by decide, by decide, by decide, by decide, by decide, by decide⟩,
    handlePacket_depends_only_on_type_low_bits_and_payload stubCodec pktA pktB
      (by decide) (by decide) (by decide) (by decide) (by decide) (by decide)⟩

end M17Monitor
